import Mathlib

/-!
Verification of the RTDE recipe codec, frame assembly, session dispatch and
script-channel completion monitor of the HRC_WELDING repository
(src/URBasic/rtde.py and src/URBasic/client.py), as a shallow embedding.

Conventions used throughout:
* Python `bytes` are `List Nat` (each entry a byte value `< 256`).
* Python numeric wire values are `Int`.  A `DOUBLE` value is represented by
  its 64-bit IEEE-754 bit pattern (`struct` moves those 8 bytes verbatim in
  both directions, so the byte-level behaviour is exact; equality of bit
  patterns is bit-identity of the floats).
* Fallible Python code (raised exceptions) returns `Except`/`Option`.
-/

/-- The RTDE field type names accepted by `RTDE_IO_Config.unpack_recipe`
(rtde.py lines 635-657).  `IN_USE` and unknown names raise there, so a
negotiated recipe only ever contains these nine. -/
inductive RType where
  | INT32
  | UINT32
  | VECTOR6D
  | VECTOR3D
  | VECTOR6INT32
  | VECTOR6UINT32
  | DOUBLE
  | UINT64
  | UINT8
deriving DecidableEq

/-- One `struct` format character, as appended to `rmd.fmt` in
`unpack_recipe`: `i`, `I`, `Q`, `B`, `d`. -/
inductive FmtChar where
  | fi
  | fI
  | fQ
  | fB
  | fd
deriving DecidableEq

/-- The format characters contributed by one type name
(`unpack_recipe`, rtde.py lines 635-653). -/
def fmtChars : RType → List FmtChar
  | .INT32 => [.fi]
  | .UINT32 => [.fI]
  | .VECTOR6D => List.replicate 6 .fd
  | .VECTOR3D => List.replicate 3 .fd
  | .VECTOR6INT32 => List.replicate 6 .fi
  | .VECTOR6UINT32 => List.replicate 6 .fI
  | .DOUBLE => [.fd]
  | .UINT64 => [.fQ]
  | .UINT8 => [.fB]

/-- `RTDEDataObject.get_item_size` (rtde.py lines 709-715):
`VECTOR6*` → 6, `VECTOR3*` → 3, everything else 1. -/
def RTDEDataObject.get_item_size : RType → Nat
  | .VECTOR6D | .VECTOR6INT32 | .VECTOR6UINT32 => 6
  | .VECTOR3D => 3
  | _ => 1

/-- `types[i].startswith('VECTOR')` (rtde.py line 684). -/
def isVectorType : RType → Bool
  | .VECTOR6D | .VECTOR3D | .VECTOR6INT32 | .VECTOR6UINT32 => true
  | _ => false

/-- The single element format character of a type (each type's format is
`elemChar` repeated `get_item_size` times). -/
def elemChar : RType → FmtChar
  | .INT32 => .fi
  | .UINT32 => .fI
  | .VECTOR6D => .fd
  | .VECTOR3D => .fd
  | .VECTOR6INT32 => .fi
  | .VECTOR6UINT32 => .fI
  | .DOUBLE => .fd
  | .UINT64 => .fQ
  | .UINT8 => .fB

/-- Byte width of one format character (`struct.calcsize`). -/
def fmtWidth : FmtChar → Nat
  | .fi => 4
  | .fI => 4
  | .fQ => 8
  | .fB => 1
  | .fd => 8

/-- Big-endian encoding of `n` on `w` bytes (most significant byte first),
as produced by a `>`-prefixed `struct` format. -/
def beBytes : Nat → Nat → List Nat
  | 0, _ => []
  | w + 1, n => beBytes w (n / 256) ++ [n % 256]

/-- Big-endian value of a byte string. -/
def beVal (bs : List Nat) : Nat :=
  bs.foldl (fun a b => 256 * a + b) 0

/-- Range accepted by `struct.pack` for one format character (`struct`
raises `struct.error` outside it).  For `d` the `Int` is the IEEE-754 bit
pattern of the float. -/
def slotOk (c : FmtChar) (v : Int) : Prop :=
  match c with
  | .fi => -(2 ^ 31) ≤ v ∧ v < 2 ^ 31
  | .fI => 0 ≤ v ∧ v < 2 ^ 32
  | .fQ => 0 ≤ v ∧ v < 2 ^ 64
  | .fB => 0 ≤ v ∧ v < 2 ^ 8
  | .fd => 0 ≤ v ∧ v < 2 ^ 64

instance (c : FmtChar) (v : Int) : Decidable (slotOk c v) := by
  unfold slotOk; cases c <;> exact inferInstance

/-- Encoding of one value by `struct.pack` for one format character,
big-endian; `none` models `struct.error`.  `i` is two's complement. -/
def encodeSlot (c : FmtChar) (v : Int) : Option (List Nat) :=
  if slotOk c v then
    match c with
    | .fi => some (beBytes 4 (v % 2 ^ 32).toNat)
    | .fI => some (beBytes 4 v.toNat)
    | .fQ => some (beBytes 8 v.toNat)
    | .fB => some (beBytes 1 v.toNat)
    | .fd => some (beBytes 8 v.toNat)
  else none

/-- Decoding of one value by `struct.unpack_from` for one format
character (big-endian; `i` sign-extends). -/
def decodeSlot (c : FmtChar) (bs : List Nat) : Int :=
  match c with
  | .fi =>
    let u := beVal bs
    if u < 2 ^ 31 then (u : Int) else (u : Int) - 2 ^ 32
  | _ => (beVal bs : Int)

/-- One element of the Python list `l` handed to `struct.pack` by
`RTDE_IO_Config.pack`: either a number or (erroneously) a whole vector
appended as one element. -/
inductive Slot where
  | intS (v : Int)
  | listS (vs : List Int)
deriving DecidableEq

/-- `struct.pack(fmt, *l)` over the derived format: every slot must be a
number matching its format character; `none` models `struct.error`
(argument count mismatch or non-numeric argument). -/
def structPack : List FmtChar → List Slot → Option (List Nat)
  | [], [] => some []
  | c :: cs, .intS v :: rest =>
    match encodeSlot c v, structPack cs rest with
    | some b, some r => some (b ++ r)
    | _, _ => none
  | _ :: _, .listS _ :: _ => none
  | _, _ => none

/-- `struct.unpack_from(fmt, data)`: reads `fmtWidth` bytes per format
character from the front of `data`, ignoring trailing bytes; `none`
models `struct.error` (buffer too short). -/
def structUnpackFrom : List FmtChar → List Nat → Option (List Int)
  | [], _ => some []
  | c :: cs, data =>
    if fmtWidth c ≤ data.length then
      match structUnpackFrom cs (data.drop (fmtWidth c)) with
      | some r => some (decodeSlot c (data.take (fmtWidth c)) :: r)
      | none => none
    else none

/-- A decoded or to-be-sent field value: a numeric scalar or a numeric
vector (numpy arrays compare element-wise, so a `List Int` is faithful). -/
inductive Value where
  | scalarV (v : Int)
  | vectorV (vs : List Int)
deriving DecidableEq

/-- The exceptions the pack path can raise. -/
inductive PackErr where
  | sizeMismatch
  | uninitialized
  | typeMismatch
  | structFail
deriving DecidableEq

/-- `RTDEDataObject`: `recipe_id` plus the dynamic attribute dictionary
(`self.__dict__`), mapping field names to their current value
(`none` = attribute set to Python `None` by `create_empty`). -/
structure RTDEDataObject where
  recipe_id : Option Int
  dict : String → Option Value

/-- The field loop of `RTDEDataObject.pack` (rtde.py lines 681-687):
`None` raises the `Uninitialized parameter` ValueError; a `VECTOR*` typed
field is `extend`ed element-wise (extending a non-list raises TypeError);
any other field is `append`ed as a single slot. -/
def packFieldsAux (dict : String → Option Value) : List String → List RType → Except PackErr (List Slot)
  | [], [] => .ok []
  | n :: ns, t :: ts =>
    match dict n with
    | none => .error .uninitialized
    | some v =>
      if isVectorType t then
        match v with
        | .vectorV vs =>
          match packFieldsAux dict ns ts with
          | .ok r => .ok (vs.map Slot.intS ++ r)
          | .error e => .error e
        | .scalarV _ => .error .typeMismatch
      else
        match packFieldsAux dict ns ts with
        | .ok r =>
          .ok ((match v with
                | .scalarV x => Slot.intS x
                | .vectorV vs => Slot.listS vs) :: r)
        | .error e => .error e
  | _, _ => .error .sizeMismatch

/-- `RTDEDataObject.pack` (rtde.py lines 675-688): length check, then the
recipe id (when set) followed by the fields in recipe order. -/
def RTDEDataObject.pack (self : RTDEDataObject) (names : List String) (types : List RType) : Except PackErr (List Slot) :=
  if names.length ≠ types.length then .error .sizeMismatch
  else
    match packFieldsAux self.dict names types with
    | .ok l =>
      .ok ((match self.recipe_id with
            | some r => [Slot.intS r]
            | none => []) ++ l)
    | .error e => .error e

/-- `RTDEDataObject.unpack_field` (rtde.py lines 717-735): a vector typed
field reads `get_item_size` consecutive entries starting at `offset`; a
scalar typed field reads the single entry at `offset` (`float`/`int`
conversions are identity on wire values).  `none` models IndexError. -/
def RTDEDataObject.unpack_field (data : List Int) (offset : Nat) (t : RType) : Option Value :=
  match t with
  | .VECTOR6D | .VECTOR3D | .VECTOR6UINT32 | .VECTOR6INT32 =>
    if offset + RTDEDataObject.get_item_size t ≤ data.length then
      some (.vectorV ((data.drop offset).take (RTDEDataObject.get_item_size t)))
    else none
  | _ => (data[offset]?).map Value.scalarV

/-- The offset walk of `RTDEDataObject.unpack` (rtde.py lines 694-699). -/
def unpackFieldsAux (data : List Int) : List String → List RType → Nat → Option (List (String × Value))
  | [], [], _ => some []
  | n :: ns, t :: ts, offset =>
    match RTDEDataObject.unpack_field data offset t,
          unpackFieldsAux data ns ts (offset + RTDEDataObject.get_item_size t) with
    | some v, some r => some ((n, v) :: r)
    | _, _ => none
  | _, _, _ => none

/-- `RTDEDataObject.unpack` (rtde.py lines 690-699), producing the Python
dict as an association list in recipe order. -/
def RTDEDataObject.unpack (data : List Int) (names : List String) (types : List RType) : Option (List (String × Value)) :=
  if names.length ≠ types.length then none
  else unpackFieldsAux data names types 0

/-- `RTDE_IO_Config` as built by `unpack_recipe`: the recipe id slot is
present exactly when the recipe was negotiated with `has_recipe_id`
(input recipes), and the format string is derived from the types. -/
structure RTDE_IO_Config where
  id : Option Int
  names : List String
  types : List RType

/-- The format list `rmd.fmt` built by `unpack_recipe`: a leading `B` for
the recipe id when present, then each type's characters in order. -/
def fmtOf (cfg : RTDE_IO_Config) : List FmtChar :=
  (match cfg.id with
   | some _ => [FmtChar.fB]
   | none => []) ++ (cfg.types.map fmtChars).flatten

/-- `RTDE_IO_Config.pack` (rtde.py lines 660-662):
`struct.pack(self.fmt, *state.pack(self.names, self.types))`. -/
def RTDE_IO_Config.pack (cfg : RTDE_IO_Config) (state : RTDEDataObject) : Except PackErr (List Nat) :=
  match RTDEDataObject.pack state cfg.names cfg.types with
  | .ok l =>
    match structPack (fmtOf cfg) l with
    | some bs => .ok bs
    | none => .error .structFail
  | .error e => .error e

/-- `RTDE_IO_Config.unpack` (rtde.py lines 664-666):
`RTDEDataObject.unpack(struct.unpack_from(self.fmt, data), names, types)`.
Note the unpacked tuple is walked from offset 0 even when the format
starts with the recipe id slot. -/
def RTDE_IO_Config.unpack (cfg : RTDE_IO_Config) (data : List Nat) : Option (List (String × Value)) :=
  match structUnpackFrom (fmtOf cfg) data with
  | some li => RTDEDataObject.unpack li cfg.names cfg.types
  | none => none

/-! ### Generic list and arithmetic helpers -/


/-- Concatenation of the images of `f` over a list. -/
def concatMapL (f : α → List β) : List α → List β
  | [] => []
  | a :: t => f a ++ concatMapL f t

/-- Pointwise relation between two lists of equal length. -/
def ZipAll (P : α → β → Prop) : List α → List β → Prop
  | [], [] => True
  | a :: as, b :: bs => P a b ∧ ZipAll P as bs
  | _, _ => False

instance ZipAll.instDec {α β : Type _} (P : α → β → Prop) [d : ∀ a b, Decidable (P a b)] :
    (as : List α) → (bs : List β) → Decidable (ZipAll P as bs)
  | [], [] => isTrue trivial
  | [], _ :: _ => isFalse fun h => h
  | _ :: _, [] => isFalse fun h => h
  | a :: as, b :: bs =>
    match d a b, ZipAll.instDec P as bs with
    | isTrue h1, isTrue h2 => isTrue ⟨h1, h2⟩
    | isFalse h1, _ => isFalse fun h => h1 h.1
    | _, isFalse h2 => isFalse fun h => h2 h.2

/-! ### Slot-level round trip -/


/-- The unsigned wire image of a slot value (`i` is reduced modulo `2^32`,
i.e. two's complement). -/
def wireNat (c : FmtChar) (v : Int) : Nat :=
  match c with
  | .fi => (v % 2 ^ 32).toNat
  | _ => v.toNat

/-! ### Field-level round trip -/


/-- A value conforming to a recipe type: vectors carry exactly the type's
slot count and every wire value is in range for the type's format
character. -/
def valueOk (t : RType) (v : Value) : Prop :=
  match v with
  | .scalarV x => isVectorType t = false ∧ slotOk (elemChar t) x
  | .vectorV vs =>
    isVectorType t = true ∧ vs.length = RTDEDataObject.get_item_size t ∧
      ∀ x ∈ vs, slotOk (elemChar t) x

instance (t : RType) (v : Value) : Decidable (valueOk t v) := by
  unfold valueOk; cases v <;> exact inferInstance

/-- The flat wire values contributed by one field value. -/
def valInts : Value → List Int
  | .scalarV x => [x]
  | .vectorV vs => vs

/-! ### Claim C1: pack/unpack round trip -/


/-- Python dict read on the association list produced by
`RTDEDataObject.unpack`. -/
def lookupL (k : String) : List (String × Value) → Option Value
  | [] => none
  | (a, v) :: t => if a = k then some v else lookupL k t

/-- Field names used by the concrete instances below. -/
def nmA : String := "a"

def nmB : String := "b"

def nmX : String := "x"

def nmY : String := "y"

/-- IEEE-754 bit pattern of the double `1.0`. -/
def bitsOne : Int := 0x3FF0000000000000

/-- IEEE-754 bit pattern of the double `2.0`. -/
def bitsTwo : Int := 0x4000000000000000

/-- A concrete no-id recipe: a `UINT8` field and a `VECTOR3D` field. -/
def c1wCfg : RTDE_IO_Config :=
  { id := none, names := [nmA, nmB], types := [RType.UINT8, RType.VECTOR3D] }

/-- A fully populated record for `c1wCfg` with boundary values. -/
def c1wState : RTDEDataObject :=
  { recipe_id := none,
    dict := fun n =>
      if n = nmA then some (Value.scalarV 255)
      else if n = nmB then some (Value.vectorV [bitsOne, 0, bitsTwo])
      else none }

/-- A one-field recipe negotiated WITH a recipe identifier byte. -/
def c1xCfg : RTDE_IO_Config :=
  { id := some 7, names := [nmX], types := [RType.UINT8] }

/-- A fully populated record for `c1xCfg` (field `x` holds 5). -/
def c1xState : RTDEDataObject :=
  { recipe_id := some 7,
    dict := fun n => if n = nmX then some (Value.scalarV 5) else none }

/-! ### Claim C5: pack layout -/


/-- Modelled from the spec: the big-endian fixed-width encoding of one
scalar wire value ("Byte order is big-endian throughout"; `i` in two's
complement). -/
def specScalarBytes (c : FmtChar) (x : Int) : List Nat :=
  beBytes (fmtWidth c) (wireNat c x)

/-- Modelled from the spec: the bytes of one field — a scalar encodes as
one big-endian slot, a vector field "expands element-wise" into its
elements' encodings in order. -/
def specFieldBytes (t : RType) (v : Value) : List Nat :=
  match v with
  | .scalarV x => specScalarBytes (elemChar t) x
  | .vectorV vs => concatMapL (specScalarBytes (elemChar t)) vs

/-- Modelled from the spec: the optional leading recipe identifier byte
("prepends the recipe identifier byte if present"). -/
def idBytes : Option Int → List Nat
  | some r => beBytes 1 r.toNat
  | none => []

/-- The end-to-end scenario recipe: input recipe id 1, fields `x`,`y`,
both `DOUBLE`. -/
def c5Cfg : RTDE_IO_Config :=
  { id := some 1, names := [nmX, nmY], types := [RType.DOUBLE, RType.DOUBLE] }

/-- The scenario record: `x = 1.0`, `y = 2.0` (as IEEE-754 bit patterns). -/
def c5State : RTDEDataObject :=
  { recipe_id := some 1,
    dict := fun n =>
      if n = nmX then some (Value.scalarV bitsOne)
      else if n = nmY then some (Value.scalarV bitsTwo)
      else none }

/-- A record for `c5Cfg` with every field unpopulated. -/
def c5mState : RTDEDataObject :=
  { recipe_id := some 1, dict := fun _ => none }

/-! ### Claim C2: frame assembly (`RTDE.__receive`, rtde.py lines 367-429) -/


/-- The frame-extraction loop of one `__receive` call on one received
chunk (rtde.py lines 384-429).  `byte_buffer` starts from the bytes of
this chunk only (it is reset to `bytes()` on entry, line 368).  While at
least 3 bytes remain, the header `>HB` is read
(`packet_size = 256*b0 + b1`, `packet_command = b2`); a complete packet
is split off as `byte_buffer[3:packet_size]`; a `packet_command` of `0`
clears the buffer (ending the loop); an incomplete packet clears the
buffer (line 426), discarding the residual bytes.  The fuel argument
majorizes the iteration count (each well-formed packet consumes at least
3 bytes; the pathological `packet_size = 0` case, on which the Python
loop would not terminate, merely exhausts the fuel). -/
def processBuf : Nat → List Nat → List (Nat × List Nat)
  | 0, _ => []
  | fuel + 1, buf =>
    if 3 ≤ buf.length then
      if 256 * buf.getD 0 0 + buf.getD 1 0 ≤ buf.length then
        if buf.getD 2 0 = 0 then
          [(buf.getD 2 0, (buf.take (256 * buf.getD 0 0 + buf.getD 1 0)).drop 3)]
        else
          (buf.getD 2 0, (buf.take (256 * buf.getD 0 0 + buf.getD 1 0)).drop 3)
            :: processBuf fuel (buf.drop (256 * buf.getD 0 0 + buf.getD 1 0))
      else []
    else []

/-- The frames decoded by one `__receive` call whose single `recv`
returned `chunk`. -/
def receiveChunk (chunk : List Nat) : List (Nat × List Nat) :=
  processBuf (chunk.length + 1) chunk

/-- The wire encoding of one frame, as built by `RTDE.__send`
(rtde.py lines 353-355): `struct.pack('>HB', size, command) + payload`
with `size = 3 + len(payload)`. -/
def encodeFrame (f : Nat × List Nat) : List Nat :=
  beBytes 2 (3 + f.2.length) ++ f.1 :: f.2

/-- Byte stream of a sequence of frames. -/
def encodeFrames (fs : List (Nat × List Nat)) : List Nat :=
  concatMapL encodeFrame fs

/-- A well-formed frame: a real (nonzero, single-byte) command and a
total size that fits the `uint16` length prefix. -/
def wfFrame (f : Nat × List Nat) : Prop :=
  f.1 ≠ 0 ∧ f.1 < 256 ∧ 3 + f.2.length < 65536

instance (f : Nat × List Nat) : Decidable (wfFrame f) := by
  unfold wfFrame; exact inferInstance

/-! ### Claim C3: `RTDE.setData` (rtde.py lines 309-339) -/


/-- Outcome of a `setData` call: an updated outbound record, or one of
the exceptions the Python code raises. -/
inductive SetDataResult where
  | updated (ds : List (String × Value))
  | errNaming
  | errLength
  | errAttr
deriving DecidableEq

/-- Python attribute assignment `self.__dataSend.__dict__[name] = value`
on the record modelled as an association list. -/
def dictSet : List (String × Value) → String → Value → List (String × Value)
  | [], k, v => [(k, v)]
  | (k0, v0) :: rest, k, v =>
    if k0 = k then (k0, v) :: rest else (k0, v0) :: dictSet rest k v

/-- The scalar branch of `RTDE.setData` (rtde.py lines 335-339): a name in
the negotiated input recipe updates the outbound record, any other name
raises the `not found in RTDE OUTPUT config` ValueError. -/
def setDataScalar (cfgNames : List String) (dataSend : List (String × Value))
    (variable_name : String) (value : Value) : SetDataResult :=
  if variable_name ∈ cfgNames then .updated (dictSet dataSend variable_name value)
  else .errNaming

/-- The list branch of `RTDE.setData` (rtde.py lines 324-333): after the
type check (both arguments are lists here) and the length check, the loop
body's first iteration evaluates `self.hasattr(...)` — but the `RTDE`
class defines no attribute `hasattr`, so every call with a non-empty name
list raises `AttributeError` before any name is checked or any value is
stored.  `cfgNames` (the negotiated input recipe names) is therefore
never consulted on this path. -/
def setDataList (cfgNames : List String) (dataSend : List (String × Value))
    (variable_name : List String) (value : List Value) : SetDataResult :=
  if variable_name.length ≠ value.length then .errLength
  else
    match variable_name with
    | [] => .updated dataSend
    | _ :: _ => .errAttr

/-- A field name for the `setData` evaluation below. -/
def nmSpeed : String := "speed"

/-! ### Claim C4: data package with no output recipe
(`RTDE.__decodePayload` lines 529-534, `__receive` lines 420-421,
`__updateModel` lines 431-440) -/


/-- The `timestamp` key consulted by `__updateModel`. -/
def tsKey : String := "timestamp"

/-- The exceptions the data-package path can raise. -/
inductive PyErr where
  | attrErr
  | typeErr
  | keyErr
deriving DecidableEq

/-- `RTDE.__updateModel(rtde_data_package)` acting on the shared
`robotModel.dataDir` store (rtde.py lines 431-440).  The package counter
is task-private and not part of the store.  When the package is Python
`None` (a dropped decode):
* if `dataDir['timestamp']` is not `None`, line 436 evaluates
  `None['timestamp']` — a TypeError;
* otherwise line 439 evaluates `None.keys()` — an AttributeError.
When the package is a dict: the delta computed on line 436 needs
`rtde_data_package['timestamp']` (KeyError if absent, only feeding a
dead `pass` branch otherwise), then every decoded entry overwrites the
corresponding `dataDir` entry, last-value-wins. -/
def updateModel (rtde_data_package : Option (List (String × Value)))
    (dataDir : String → Option Value) : Except PyErr (String → Option Value) :=
  match rtde_data_package with
  | none =>
    if (dataDir tsKey).isSome then .error .typeErr
    else .error .attrErr
  | some r =>
    if (dataDir tsKey).isSome then
      match lookupL tsKey r with
      | none => .error .keyErr
      | some _ =>
        .ok fun n =>
          match lookupL n r with
          | some v => some v
          | none => dataDir n
    else
      .ok fun n =>
        match lookupL n r with
        | some v => some v
        | none => dataDir n

/-- `__decodePayload` for `RTDE_DATA_PACKAGE` (rtde.py lines 529-534):
with no negotiated output recipe the payload decodes to `None`
(the logging call is commented out); otherwise it is unpacked against the
output recipe. -/
def decodeDataPackage (rtde_output_config : Option RTDE_IO_Config)
    (payload : List Nat) : Option (List (String × Value)) :=
  match rtde_output_config with
  | none => none
  | some cfg => RTDE_IO_Config.unpack cfg payload

/-- The `__receive` dispatch for a decoded `RTDE_DATA_PACKAGE` frame
(rtde.py lines 420-421): `self.__updateModel(data)` on whatever
`__decodePayload` returned — including `None`. -/
def handleDataPackageFrame (rtde_output_config : Option RTDE_IO_Config)
    (payload : List Nat) (dataDir : String → Option Value) :
    Except PyErr (String → Option Value) :=
  updateModel (decodeDataPackage rtde_output_config payload) dataDir

/-! ### Script channel and completion monitor (src/URBasic/client.py) -/


/-- Modelled from the spec: the ordered connection-state enum of §3
(`DISCONNECTED < CONNECTED < STARTED < PAUSED`, `ERROR` a distinguished
failure state below the live states).  The defining module
(`URBasic/state.py`) is not part of the sources; only the ordinal
comparisons are used here. -/
inductive ConnectionState where
  | ERROR
  | DISCONNECTED
  | CONNECTED
  | STARTED
  | PAUSED
deriving DecidableEq

/-- Ordinal of a connection state, for the `>` comparisons the client
performs on it. -/
def ConnectionState.toOrd : ConnectionState → Nat
  | .ERROR => 0
  | .DISCONNECTED => 1
  | .CONNECTED => 2
  | .STARTED => 3
  | .PAUSED => 4

/-- Modelled from the spec: the fields of the shared control-state store
(`robotModel`, §3 "ControlState") that the script channel reads and
writes.  The store itself is defined outside the given sources; the field
names follow the attribute names used by client.py. -/
structure RobotModel where
  stopRunningFlag : Bool
  rtcProgramRunning : Bool
  rtcProgramExecutionError : Bool
  rtcConnectionState : ConnectionState
  forceRemoteActiveFlag : Bool
deriving DecidableEq

/-- The externally produced signals one monitor-loop iteration reads:
`SafetyStatus().StoppedDueToSafety`, `OutputBitRegister()[0]`,
`OutputBitRegister()[1]`, `RobotStatus().ProgramRunning`. -/
structure MonitorEnv where
  stoppedDueToSafety : Bool
  outputBitRegister0 : Bool
  outputBitRegister1 : Bool
  robotProgramRunning : Bool
deriving DecidableEq

/-- One iteration of the polling loop of
`RealTimeClient.__waitForProgram2Finish` (client.py lines 254-274),
returning the updated store and `notrun` counter. -/
def monitorStep (robotModel : RobotModel) (env : MonitorEnv) (notrun : Nat)
    (waitForProgramStart : Nat) : RobotModel × Nat :=
  if env.stoppedDueToSafety then
    ({robotModel with rtcProgramRunning := false, rtcProgramExecutionError := true}, notrun)
  else if env.outputBitRegister0 = false then
    if notrun + 1 > waitForProgramStart then
      ({robotModel with rtcProgramRunning := false}, notrun + 1)
    else (robotModel, notrun + 1)
  else if env.outputBitRegister0 && env.outputBitRegister1 then
    ({robotModel with rtcProgramRunning := false}, notrun)
  else if env.outputBitRegister0 then
    if env.robotProgramRunning then (robotModel, 0)
    else if notrun + 1 > 10 then
      ({robotModel with rtcProgramRunning := false, rtcProgramExecutionError := true},
       notrun + 1)
    else (robotModel, notrun + 1)
  else ({robotModel with rtcProgramRunning := false}, notrun)

/-- The polling loop
(`while not stopRunningFlag and rtcProgramRunning`, client.py line 254):
iteration `n` reads the external signals `envs n`; the fuel bounds the
number of polls (the Python loop sleeps 0.05 s per iteration and has no
other exit). `none` = the loop is still running when the fuel runs out. -/
def monitorRun (fuel : Nat) (envs : Nat → MonitorEnv) (k : Nat)
    (robotModel : RobotModel) (notrun : Nat) (waitForProgramStart : Nat) :
    Option RobotModel :=
  match fuel with
  | 0 => none
  | fuel + 1 =>
    if robotModel.stopRunningFlag = false ∧ robotModel.rtcProgramRunning = true then
      monitorRun fuel envs (k + 1)
        (monitorStep robotModel (envs k) notrun waitForProgramStart).1
        (monitorStep robotModel (envs k) notrun waitForProgramStart).2
        waitForProgramStart
    else some robotModel

/-- The fixed reset-both-registers program `prgRest`
(client.py line 253). -/
def prgRest : List Char :=
  "def resetRegister():\n  write_output_boolean_register(0, False)\n  write_output_boolean_register(1, False)\nend\n".toList

/-- `RealTimeClient.__sendPrg` (client.py lines 226-244), at the level of
its observable effect on the store and of the programs actually written
to the script socket (returned as a list).  The send loop runs only
`while not stopRunningFlag and not programSend`: with the stop flag set
nothing is ever transmitted and `rtcProgramRunning` is cleared; otherwise
the program is sent on the first writable poll (`writable`).  `none`
models the case where the socket never becomes writable and the loop
spins forever; the exception/reconnect path inside the loop re-enters the
same loop and is subsumed by the `writable` outcome. -/
def sendPrg (robotModel : RobotModel) (writable : Bool) (prg : List Char) :
    Option (RobotModel × List (List Char)) :=
  let st := {robotModel with forceRemoteActiveFlag := false}
  if st.stopRunningFlag then some ({st with rtcProgramRunning := false}, [])
  else if writable then some (st, [prg])
  else none

/-- `RealTimeClient.__waitForProgram2Finish` (client.py lines 247-276):
run the polling loop with `notrun = 0` and
`waitForProgramStart = len(prg)/50`, then `__sendPrg(prgRest)`, then
clear `rtcProgramRunning`.  The result carries the final store and the
list of programs actually transmitted after leaving the loop. -/
def waitForProgram2Finish (fuel : Nat) (envs : Nat → MonitorEnv)
    (robotModel : RobotModel) (prg : List Char) (writable : Bool) :
    Option (RobotModel × List (List Char)) :=
  match monitorRun fuel envs 0 robotModel 0 (prg.length / 50) with
  | none => none
  | some stL =>
    match sendPrg stL writable prgRest with
    | none => none
    | some (st2, sent) => some ({st2 with rtcProgramRunning := false}, sent)

/-- External signals that never fire. -/
def envQuiet : MonitorEnv :=
  { stoppedDueToSafety := false, outputBitRegister0 := false,
    outputBitRegister1 := false, robotProgramRunning := false }

/-- Constant quiet signal trace. -/
def envsQuiet : Nat → MonitorEnv := fun _ => envQuiet

/-- A store with the external stop request asserted while a program is
flagged running. -/
def stStopReq : RobotModel :=
  { stopRunningFlag := true, rtcProgramRunning := true,
    rtcProgramExecutionError := false, rtcConnectionState := .CONNECTED,
    forceRemoteActiveFlag := false }

/-- A store with a program flagged running and no stop request. -/
def stRun : RobotModel :=
  { stopRunningFlag := false, rtcProgramRunning := true,
    rtcProgramExecutionError := false, rtcConnectionState := .CONNECTED,
    forceRemoteActiveFlag := false }

/-- The safety-stop signal asserted. -/
def envSafety : MonitorEnv :=
  { stoppedDueToSafety := true, outputBitRegister0 := false,
    outputBitRegister1 := false, robotProgramRunning := false }

/-- Constant safety-stop signal trace. -/
def envsSafety : Nat → MonitorEnv := fun _ => envSafety

/-! ### Program instrumentation (`RealTimeClient.__AddStatusBit2Prog`,
client.py lines 203-224)

Python strings are `List Char`; `find`/`rfind`/`replace(_,_,1)` and the
`re.findall` count are implemented with Python's semantics. -/


/-- `s.find(pat)`: index of the first occurrence (`none` = Python `-1`). -/
def strFind : List Char → List Char → Option Nat
  | [], pat => if pat.isPrefixOf [] then some 0 else none
  | s@(_ :: t), pat =>
    if pat.isPrefixOf s then some 0
    else (strFind t pat).map (· + 1)

/-- `s.rfind(pat)`: index of the last occurrence (`none` = Python `-1`). -/
def strRfind : List Char → List Char → Option Nat
  | [], pat => if pat.isPrefixOf [] then some 0 else none
  | s@(_ :: t), pat =>
    match strRfind t pat with
    | some j => some (j + 1)
    | none => if pat.isPrefixOf s then some 0 else none

/-- `s.replace(pat, rep, 1)`: replace the first occurrence only. -/
def strReplaceFirst (s pat rep : List Char) : List Char :=
  match strFind s pat with
  | none => s
  | some i => s.take i ++ rep ++ s.drop (i + pat.length)

/-- `len(re.findall(pat, s))`: number of non-overlapping occurrences,
scanning left to right.  The fuel (one unit per character) majorizes the
scan; `countSub` supplies `s.length + 1`, which is exact for the
non-empty patterns used here. -/
def countSubAux : Nat → List Char → List Char → Nat
  | 0, _, _ => 0
  | fuel + 1, s, pat =>
    if pat ≠ [] ∧ pat.isPrefixOf s then
      countSubAux fuel (s.drop pat.length) pat + 1
    else
      match s with
      | [] => 0
      | _ :: t => countSubAux fuel t pat

/-- Non-overlapping occurrence count (see `countSubAux`). -/
def countSub (s pat : List Char) : Nat :=
  countSubAux (s.length + 1) s pat

/-- `pat` occurs somewhere in `s` (Python `pat in s`). -/
def occursIn (pat s : List Char) : Prop :=
  ∃ i, pat.isPrefixOf (s.drop i) = true

/-- The token `'def '` searched for on client.py line 207. -/
def defTok : List Char := "def ".toList

/-- The header-end token `'):\n'` replaced on client.py line 210. -/
def hdrTok : List Char := "):\n".toList

/-- The started-marker line inserted after the header (line 210). -/
def startIns : List Char := "  write_output_boolean_register(0, True)\n".toList

/-- The finished-marker line inserted before the closing `end`
(lines 217 and 220). -/
def finishIns : List Char := "\n  write_output_boolean_register(1, True)\n".toList

/-- The wrapper head used when the text has no function definition
(line 223). -/
def wrapPre : List Char :=
  "def script():\n  write_output_boolean_register(0, True)\n  ".toList

/-- The wrapper tail used when the text has no function definition
(line 223). -/
def wrapSuf : List Char := "\n  write_output_boolean_register(1, True)\nend\n".toList

/-- `'end'` (line 219). -/
def endTok : List Char := "end".toList

/-- `'end '` (line 216). -/
def endSpTok : List Char := "end ".toList

/-- `'end\n'` (line 216). -/
def endNlTok : List Char := "end\n".toList

/-- The result of `__AddStatusBit2Prog`: an instrumented program string,
or the Python literal `False` returned on line 212. -/
inductive PrgOrFalse where
  | prgStr (s : List Char)
  | falseVal
deriving DecidableEq

/-- `RealTimeClient.__AddStatusBit2Prog` (client.py lines 203-224).
If `'def '` occurs: insert the started-marker after the first `'):\n'`
(returning `False` when no `'):\n'` exists, since the replace then
changes nothing); if more than one `'def '` remains, take the prefix up
to the second `'def '` (the "main program") and insert the
finished-marker before the last `'end '`/`'end\n'` inside it, else
insert it before the last `'end'` of the whole text; the
`prg.replace(prg[0:cut], prg[0:cut] + marker, 1)` idiom inserts at `cut`
because a prefix first occurs at index 0, and a `rfind` result of `-1`
makes the slice `prg[0:-1]`, i.e. `cut = len - 1`.  With no `'def '` at
all, wrap the whole text in a synthesized function with both markers. -/
def addStatusBit2Prog (prg : List Char) : PrgOrFalse :=
  match strFind prg defTok with
  | some def1 =>
    let prg1 := strReplaceFirst prg hdrTok (hdrTok ++ startIns)
    if prg1.length = prg.length then .falseVal
    else
      if 1 < countSub prg1 defTok then
        let fidx : Int :=
          match strFind (prg1.drop (def1 + 4)) defTok with
          | some j => (j : Int)
          | none => -1
        let mainprg := prg1.take (fidx + (def1 : Int) + 4).toNat
        let mainPrgEnd : Int :=
          max (match strRfind mainprg endSpTok with
               | some j => (j : Int)
               | none => -1)
              (match strRfind mainprg endNlTok with
               | some j => (j : Int)
               | none => -1)
        let cut := if 0 ≤ mainPrgEnd then mainPrgEnd.toNat else prg1.length - 1
        .prgStr (prg1.take cut ++ finishIns ++ prg1.drop cut)
      else
        let cut :=
          match strRfind prg1 endTok with
          | some k => k
          | none => prg1.length - 1
        .prgStr (prg1.take cut ++ finishIns ++ prg1.drop cut)
  | none => .prgStr (wrapPre ++ prg ++ wrapSuf)

/-- A text with `'def '` but no `'):\n'`. -/
def c10prg : List Char := "def f(): x end".toList

/-- The single well-formed `def ... end` block of the C8 witness. -/
def c8prg : List Char := "def f():\nx\nend\n".toList

/-- A command text with no function definition. -/
def c8noDef : List Char := "movej(q)\n".toList

/-! ### Claim C9: `RealTimeClient.SendProgram` (client.py lines 129-169) -/


/-- `RealTimeClient.IsRtcConnected` (client.py line 127):
`rtcConnectionState > ConnectionState.DISCONNECTED`. -/
def IsRtcConnected (robotModel : RobotModel) : Bool :=
  decide (ConnectionState.DISCONNECTED.toOrd < robotModel.rtcConnectionState.toOrd)

/-- An externally visible action of `SendProgram`. -/
inductive ClientAction where
  | transmit (p : PrgOrFalse)
  | startMonitorThread
deriving DecidableEq

/-- `RealTimeClient.SendProgram` (client.py lines 146-169), as its effect
on the store plus the list of externally visible actions, in program
order.  `connectOk` is the outcome of the `__connect` attempt when the
channel is down (the constructor-time socket is not modelled further);
`threadExists` says whether a previous monitoring thread object exists.
The close-down of a previous thread (lines 154-159) blocks until the
monitor clears `rtcProgramRunning`; its observable outcome on the store
is that flag cleared, with `stopRunningFlag` toggled on and back off.
Then the status bits are reset and the instrumented program is handed to
`__sendPrg` and a fresh monitoring thread is started. -/
def SendProgram (robotModel : RobotModel) (connectOk : Bool) (threadExists : Bool)
    (prg : List Char) : RobotModel × List ClientAction :=
  let st :=
    if IsRtcConnected robotModel then robotModel
    else if connectOk then {robotModel with rtcConnectionState := .CONNECTED}
    else robotModel
  if ¬ IsRtcConnected st then (st, [])
  else if st.stopRunningFlag then (st, [])
  else
    let st := if threadExists && st.rtcProgramRunning then
        {st with rtcProgramRunning := false}
      else st
    let st := {st with rtcProgramRunning := true, rtcProgramExecutionError := false}
    (st, [.transmit (addStatusBit2Prog prg), .startMonitorThread])

/-- A connected store with the stop request asserted. -/
def stC9 : RobotModel :=
  { stopRunningFlag := true, rtcProgramRunning := false,
    rtcProgramExecutionError := false, rtcConnectionState := .CONNECTED,
    forceRemoteActiveFlag := false }

theorem ZipAll.length_eq {P : α → β → Prop} :
    ∀ (as : List α) (bs : List β), ZipAll P as bs → as.length = bs.length
  | [], [], _ => rfl
  | [], _ :: _, h => h.elim
  | _ :: _, [], h => h.elim
  | _ :: as, _ :: bs, h => by
    simpa using ZipAll.length_eq as bs h.2

theorem ZipAll.append {P : α → β → Prop} :
    ∀ (as : List α) (bs : List β) (cs : List α) (ds : List β),
      ZipAll P as bs → ZipAll P cs ds → ZipAll P (as ++ cs) (bs ++ ds)
  | [], [], _, _, _, h2 => h2
  | [], _ :: _, _, _, h1, _ => h1.elim
  | _ :: _, [], _, _, h1, _ => h1.elim
  | _ :: as, _ :: bs, cs, ds, h1, h2 => ⟨h1.1, ZipAll.append as bs cs ds h1.2 h2⟩

theorem zipAll_replicate {P : α → β → Prop} (c : α) :
    ∀ (vs : List β), (∀ x ∈ vs, P c x) → ZipAll P (List.replicate vs.length c) vs
  | [], _ => trivial
  | v :: vs, h =>
    ⟨h v (List.mem_cons_self v vs),
     zipAll_replicate c vs fun x hx => h x (List.mem_cons_of_mem v hx)⟩

theorem takeLenAppend (l r : List α) : (l ++ r).take l.length = l := by
  induction l with
  | nil => rfl
  | cons a t ih => simp [ih]

theorem dropLenAppend (l r : List α) : (l ++ r).drop l.length = r := by
  induction l with
  | nil => rfl
  | cons a t ih => simp [ih]

theorem getAppendLen (pre : List α) (x : α) (r : List α) :
    (pre ++ x :: r)[pre.length]? = some x := by
  induction pre with
  | nil => simp
  | cons a t ih => simpa using ih

theorem mapFlatten_eq_concatMapL (f : α → List β) (l : List α) :
    (l.map f).flatten = concatMapL f l := by
  induction l with
  | nil => rfl
  | cons a t ih => simp [concatMapL, ih]

theorem beBytes_length : ∀ (w n : Nat), (beBytes w n).length = w := by
  intro w
  induction w with
  | zero => intro n; rfl
  | succ w ih => intro n; simp [beBytes, ih]

theorem beVal_append (bs : List Nat) (b : Nat) : beVal (bs ++ [b]) = 256 * beVal bs + b := by
  simp [beVal, List.foldl_append]

theorem beVal_beBytes : ∀ (w n : Nat), n < 256 ^ w → beVal (beBytes w n) = n := by
  intro w
  induction w with
  | zero =>
    intro n h
    norm_num at h
    simp [beBytes, beVal, h]
  | succ w ih =>
    intro n h
    have h' : n < 256 * 256 ^ w := by rw [pow_succ'] at h; exact h
    rw [beBytes, beVal_append, ih (n / 256) (Nat.div_lt_of_lt_mul h')]
    omega

theorem encodeSlot_eq (c : FmtChar) (v : Int) (h : slotOk c v) :
    encodeSlot c v = some (beBytes (fmtWidth c) (wireNat c v)) := by
  cases c <;> (unfold encodeSlot; rw [if_pos h]) <;> rfl

theorem wireNat_lt (c : FmtChar) (v : Int) (h : slotOk c v) :
    wireNat c v < 256 ^ fmtWidth c := by
  cases c <;> simp only [slotOk] at h <;> simp only [wireNat, fmtWidth] <;> norm_num <;> omega

theorem decodeSlot_encode (c : FmtChar) (v : Int) (h : slotOk c v) :
    decodeSlot c (beBytes (fmtWidth c) (wireNat c v)) = v := by
  have hb := beVal_beBytes (fmtWidth c) (wireNat c v) (wireNat_lt c v h)
  cases c with
  | fi =>
    simp only [slotOk] at h
    simp only [wireNat, fmtWidth] at hb ⊢
    simp only [decodeSlot, hb]
    split_ifs <;> omega
  | fI =>
    simp only [slotOk] at h
    simp only [wireNat, fmtWidth] at hb ⊢
    simp only [decodeSlot, hb]
    omega
  | fQ =>
    simp only [slotOk] at h
    simp only [wireNat, fmtWidth] at hb ⊢
    simp only [decodeSlot, hb]
    omega
  | fB =>
    simp only [slotOk] at h
    simp only [wireNat, fmtWidth] at hb ⊢
    simp only [decodeSlot, hb]
    omega
  | fd =>
    simp only [slotOk] at h
    simp only [wireNat, fmtWidth] at hb ⊢
    simp only [decodeSlot, hb]
    omega

/-- `struct.pack` of a list of numeric slots succeeds on in-range values
and `struct.unpack_from` recovers exactly those values, independently of
any trailing bytes. -/
theorem structPack_map_intS :
    ∀ (fmt : List FmtChar) (ints : List Int), ZipAll slotOk fmt ints →
      ∃ bs : List Nat, structPack fmt (ints.map Slot.intS) = some bs ∧
        ∀ rest : List Nat, structUnpackFrom fmt (bs ++ rest) = some ints := by
  intro fmt
  induction fmt with
  | nil =>
    intro ints h
    cases ints with
    | nil => exact ⟨[], rfl, fun _ => rfl⟩
    | cons v vs => exact h.elim
  | cons c cs ih =>
    intro ints h
    cases ints with
    | nil => exact h.elim
    | cons v vs =>
      obtain ⟨h1, h2⟩ := h
      obtain ⟨bs, hbs, hun⟩ := ih vs h2
      refine ⟨beBytes (fmtWidth c) (wireNat c v) ++ bs, ?_, ?_⟩
      · simp [structPack, encodeSlot_eq c v h1, hbs]
      · intro rest
        have hdec := decodeSlot_encode c v h1
        have hl := beBytes_length (fmtWidth c) (wireNat c v)
        generalize hB : beBytes (fmtWidth c) (wireNat c v) = B at hdec hl ⊢
        simp only [structUnpackFrom, List.append_assoc]
        have hle : fmtWidth c ≤ (B ++ (bs ++ rest)).length := by
          rw [List.length_append, hl]; omega
        rw [if_pos hle, ← hl, dropLenAppend, takeLenAppend, hun rest, hdec]

theorem fmtChars_replicate (t : RType) :
    fmtChars t = List.replicate (RTDEDataObject.get_item_size t) (elemChar t) := by
  cases t <;> rfl

theorem get_item_size_scalar (t : RType) (h : isVectorType t = false) :
    RTDEDataObject.get_item_size t = 1 := by
  cases t <;> simp_all [isVectorType, RTDEDataObject.get_item_size]

theorem unpack_field_scalar (t : RType) (h : isVectorType t = false)
    (data : List Int) (offset : Nat) :
    RTDEDataObject.unpack_field data offset t = (data[offset]?).map Value.scalarV := by
  cases t <;> simp_all [isVectorType, RTDEDataObject.unpack_field]

theorem unpack_field_vector (t : RType) (h : isVectorType t = true)
    (data : List Int) (offset : Nat) :
    RTDEDataObject.unpack_field data offset t =
      if offset + RTDEDataObject.get_item_size t ≤ data.length then
        some (.vectorV ((data.drop offset).take (RTDEDataObject.get_item_size t)))
      else none := by
  cases t <;> simp_all [isVectorType, RTDEDataObject.unpack_field]

/-- Main field-walk lemma: for a fully populated conforming record, the
pack loop produces exactly the flat list of wire values (all numeric and
in range), and the unpack offset walk over those values — embedded at any
offset inside a larger tuple — rebuilds the record, field by field, in
recipe order. -/
theorem fields_main (names : List String) (types : List RType) (vals : List Value)
    (dict : String → Option Value)
    (hrec : ZipAll (fun n v => dict n = some v) names vals)
    (hok : ZipAll valueOk types vals) :
    ∃ ints : List Int,
      packFieldsAux dict names types = .ok (ints.map Slot.intS) ∧
      ints = concatMapL valInts vals ∧
      ZipAll slotOk (concatMapL fmtChars types) ints ∧
      ∀ pre post : List Int,
        unpackFieldsAux (pre ++ ints ++ post) names types pre.length
          = some (names.zip vals) := by
  induction names generalizing types vals with
  | nil =>
    cases vals with
    | cons v vs => exact hrec.elim
    | nil =>
      cases types with
      | cons t ts => exact hok.elim
      | nil => exact ⟨[], rfl, rfl, trivial, fun _ _ => rfl⟩
  | cons n ns ih =>
    cases vals with
    | nil => exact hrec.elim
    | cons v vs =>
      cases types with
      | nil => exact hok.elim
      | cons t ts =>
        obtain ⟨hdn, hrec'⟩ := hrec
        obtain ⟨hv, hok'⟩ := hok
        obtain ⟨ints, hpack, hints, hzip, hunp⟩ := ih ts vs hrec' hok'
        cases v with
        | scalarV x =>
          obtain ⟨hnv, hx⟩ := hv
          have hsize := get_item_size_scalar t hnv
          have hfc : fmtChars t = [elemChar t] := by
            rw [fmtChars_replicate, hsize]; rfl
          refine ⟨x :: ints, ?_, ?_, ?_, ?_⟩
          · simp [packFieldsAux, hdn, hnv, hpack]
          · simp [concatMapL, valInts, hints]
          · show ZipAll slotOk (fmtChars t ++ concatMapL fmtChars ts) (x :: ints)
            rw [hfc]
            exact ⟨hx, hzip⟩
          · intro pre post
            have h1 : RTDEDataObject.unpack_field (pre ++ (x :: ints) ++ post) pre.length t
                = some (.scalarV x) := by
              rw [unpack_field_scalar t hnv]
              have e : pre ++ (x :: ints) ++ post = pre ++ x :: (ints ++ post) := by simp
              rw [e, getAppendLen]
              rfl
            have h2 : unpackFieldsAux (pre ++ (x :: ints) ++ post) ns ts
                (pre.length + RTDEDataObject.get_item_size t) = some (ns.zip vs) := by
              rw [hsize]
              have e : pre ++ (x :: ints) ++ post = (pre ++ [x]) ++ ints ++ post := by simp
              have e2 : pre.length + 1 = (pre ++ [x]).length := by simp
              rw [e, e2]
              exact hunp (pre ++ [x]) post
            simp only [List.append_assoc, List.cons_append] at h1 h2
            simp [unpackFieldsAux, h1, h2]
        | vectorV ws =>
          obtain ⟨hnv, hlenw, hws⟩ := hv
          refine ⟨ws ++ ints, ?_, ?_, ?_, ?_⟩
          · simp [packFieldsAux, hdn, hnv, hpack]
          · simp [concatMapL, valInts, hints]
          · show ZipAll slotOk (fmtChars t ++ concatMapL fmtChars ts) (ws ++ ints)
            rw [fmtChars_replicate, ← hlenw]
            exact ZipAll.append _ _ _ _ (zipAll_replicate (elemChar t) ws hws) hzip
          · intro pre post
            have hb : pre.length + RTDEDataObject.get_item_size t
                ≤ (pre ++ (ws ++ ints) ++ post).length := by
              simp only [List.length_append, ← hlenw]
              omega
            have h1 : RTDEDataObject.unpack_field (pre ++ (ws ++ ints) ++ post) pre.length t
                = some (.vectorV ws) := by
              rw [unpack_field_vector t hnv, if_pos hb]
              have e : pre ++ (ws ++ ints) ++ post = pre ++ (ws ++ (ints ++ post)) := by simp
              rw [e, dropLenAppend, ← hlenw, takeLenAppend]
            have h2 : unpackFieldsAux (pre ++ (ws ++ ints) ++ post) ns ts
                (pre.length + RTDEDataObject.get_item_size t) = some (ns.zip vs) := by
              rw [← hlenw]
              have e : pre ++ (ws ++ ints) ++ post = (pre ++ ws) ++ ints ++ post := by simp
              have e2 : pre.length + ws.length = (pre ++ ws).length := by simp
              rw [e, e2]
              exact hunp (pre ++ ws) post
            simp only [List.append_assoc, List.cons_append] at h1 h2
            simp [unpackFieldsAux, h1, h2]

theorem zip_lookup (dict : String → Option Value) :
    ∀ (names : List String) (vals : List Value),
      ZipAll (fun n v => dict n = some v) names vals → names.Nodup →
      ∀ n ∈ names, lookupL n (names.zip vals) = dict n := by
  intro names
  induction names with
  | nil => intro vals _ _ n hn; exact absurd hn (List.not_mem_nil n)
  | cons n0 ns ih =>
    intro vals hz hnd n hn
    cases vals with
    | nil => exact hz.elim
    | cons v0 vs =>
      obtain ⟨h1, h2⟩ := hz
      simp only [List.zip_cons_cons, lookupL]
      by_cases he : n0 = n
      · subst he
        rw [if_pos rfl, h1]
      · rw [if_neg he]
        rcases List.mem_cons.mp hn with h | h
        · exact absurd h.symm he
        · exact ih vs h2 hnd.of_cons n h

/-- Claim C1 (amended to recipes without a recipe identifier byte).
For every `RTDE_IO_Config` whose format carries no recipe id slot, and
every fully populated `RTDEDataObject` conforming to it (distinct field
names, every field holding an in-range value of its declared shape,
`recipe_id` unset to match the format), unpacking the bytes produced by
packing yields exactly the original record: the decoded dict lists the
fields in recipe order and agrees with the record on every field name.
This covers all nine scalar and vector types and arbitrary in-range
values, including boundary values. -/
theorem pack_unpack_roundtrip_no_id (cfg : RTDE_IO_Config) (state : RTDEDataObject)
    (vals : List Value)
    (hid : cfg.id = none) (hrid : state.recipe_id = none)
    (hnodup : cfg.names.Nodup)
    (hrec : ZipAll (fun n v => state.dict n = some v) cfg.names vals)
    (hok : ZipAll valueOk cfg.types vals) :
    ∃ bs d, RTDE_IO_Config.pack cfg state = .ok bs ∧
      RTDE_IO_Config.unpack cfg bs = some d ∧
      d = cfg.names.zip vals ∧
      ∀ n ∈ cfg.names, lookupL n d = state.dict n := by
  obtain ⟨ints, hpack, hints, hzip, hunp⟩ :=
    fields_main cfg.names cfg.types vals state.dict hrec hok
  have hlen : cfg.names.length = cfg.types.length :=
    (ZipAll.length_eq _ _ hrec).trans (ZipAll.length_eq _ _ hok).symm
  have hfmt : fmtOf cfg = concatMapL fmtChars cfg.types := by
    simp [fmtOf, hid, mapFlatten_eq_concatMapL]
  obtain ⟨bs, hbs, hun⟩ := structPack_map_intS (fmtOf cfg) ints (hfmt ▸ hzip)
  refine ⟨bs, cfg.names.zip vals, ?_, ?_, rfl, ?_⟩
  · unfold RTDE_IO_Config.pack RTDEDataObject.pack
    rw [if_neg (by omega), hpack, hrid]
    simp [hbs]
  · unfold RTDE_IO_Config.unpack RTDEDataObject.unpack
    have hsu := hun []
    rw [List.append_nil] at hsu
    rw [hsu]
    have h0 := hunp [] []
    simp only [List.nil_append, List.append_nil, List.length_nil] at h0
    simp [hlen, h0]
  · exact zip_lookup state.dict cfg.names vals hrec hnodup

/-- Witness for `pack_unpack_roundtrip_no_id` at a concrete recipe. -/
theorem pack_unpack_roundtrip_no_id_witness :
    ∃ bs d, RTDE_IO_Config.pack c1wCfg c1wState = .ok bs ∧
      RTDE_IO_Config.unpack c1wCfg bs = some d ∧
      d = c1wCfg.names.zip [Value.scalarV 255, Value.vectorV [bitsOne, 0, bitsTwo]] ∧
      ∀ n ∈ c1wCfg.names, lookupL n d = c1wState.dict n :=
  pack_unpack_roundtrip_no_id c1wCfg c1wState
    [Value.scalarV 255, Value.vectorV [bitsOne, 0, bitsTwo]]
    rfl rfl (by decide) (by decide) (by decide)

/-- Counterexample to claim C1 as stated: for a recipe WITH a recipe
identifier byte, unpacking the bytes produced by packing does not return
the original record.  Packing the record `x = 5` under recipe id 7 yields
the bytes `[7, 5]`, but unpacking them decodes field `x` to the identifier
`7`, not to `5`: the unpack walk starts at the identifier slot. -/
theorem c1_counterexample :
    RTDE_IO_Config.pack c1xCfg c1xState = .ok [7, 5] ∧
    RTDE_IO_Config.unpack c1xCfg [7, 5] = some [(nmX, Value.scalarV 7)] ∧
    c1xState.dict nmX = some (Value.scalarV 5) ∧
    lookupL nmX [(nmX, Value.scalarV 7)] ≠ c1xState.dict nmX :=
  ⟨by rfl, by rfl, by rfl, by decide⟩

theorem structPack_append :
    ∀ (f1 : List FmtChar) (s1 : List Slot) (f2 : List FmtChar) (s2 : List Slot),
      f1.length = s1.length →
      structPack (f1 ++ f2) (s1 ++ s2) =
        match structPack f1 s1, structPack f2 s2 with
        | some a, some b => some (a ++ b)
        | _, _ => none := by
  intro f1
  induction f1 with
  | nil =>
    intro s1 f2 s2 hl
    cases s1 with
    | cons s t => simp at hl
    | nil =>
      simp only [List.nil_append, structPack]
      cases structPack f2 s2 <;> simp
  | cons c f1 ih =>
    intro s1 f2 s2 hl
    cases s1 with
    | nil => simp at hl
    | cons s s1 =>
      cases s with
      | listS vs => simp [structPack]
      | intS v =>
        simp only [List.cons_append, structPack, List.append_eq]
        rw [ih s1 f2 s2 (by simpa using hl)]
        cases encodeSlot c v <;> cases structPack f1 s1 <;> cases structPack f2 s2 <;> simp

theorem structPack_replicate (c : FmtChar) :
    ∀ ws : List Int, (∀ x ∈ ws, slotOk c x) →
      structPack (List.replicate ws.length c) (ws.map Slot.intS)
        = some (concatMapL (specScalarBytes c) ws) := by
  intro ws
  induction ws with
  | nil => intro _; rfl
  | cons w ws ih =>
    intro h
    simp only [List.length_cons, List.replicate_succ, List.map_cons, structPack]
    rw [encodeSlot_eq c w (h w (List.mem_cons_self w ws)),
      ih fun x hx => h x (List.mem_cons_of_mem w hx)]
    rfl

theorem structPack_field (t : RType) (v : Value) (h : valueOk t v) :
    structPack (fmtChars t) ((valInts v).map Slot.intS) = some (specFieldBytes t v) := by
  cases v with
  | scalarV x =>
    obtain ⟨hnv, hx⟩ := h
    have hfc : fmtChars t = [elemChar t] := by
      rw [fmtChars_replicate, get_item_size_scalar t hnv]; rfl
    rw [hfc]
    simp [structPack, valInts, encodeSlot_eq (elemChar t) x hx, specFieldBytes,
      specScalarBytes]
  | vectorV ws =>
    obtain ⟨hnv, hlenw, hws⟩ := h
    rw [fmtChars_replicate, ← hlenw]
    exact structPack_replicate (elemChar t) ws hws

theorem structPack_fields_bytes :
    ∀ (types : List RType) (vals : List Value), ZipAll valueOk types vals →
      structPack (concatMapL fmtChars types) ((concatMapL valInts vals).map Slot.intS)
        = some (concatMapL (fun p => specFieldBytes p.1 p.2) (types.zip vals)) := by
  intro types
  induction types with
  | nil =>
    intro vals h
    cases vals with
    | nil => rfl
    | cons v vs => exact h.elim
  | cons t ts ih =>
    intro vals h
    cases vals with
    | nil => exact h.elim
    | cons v vs =>
      obtain ⟨hv, h'⟩ := h
      have hflen : (fmtChars t).length = ((valInts v).map Slot.intS).length := by
        rw [fmtChars_replicate]
        cases v with
        | scalarV x => simp [valInts, get_item_size_scalar t hv.1]
        | vectorV ws => simp [valInts, hv.2.1]
      simp only [concatMapL, List.map_append]
      rw [structPack_append (fmtChars t) ((valInts v).map Slot.intS) _ _ hflen,
        structPack_field t v hv, ih vs h']
      rfl

theorem packFieldsAux_uninit :
    ∀ (names : List String) (types : List RType) (dict : String → Option Value),
      names.length = types.length →
      (∀ p ∈ names.zip types, ∀ v, dict p.1 = some v → valueOk p.2 v) →
      (∃ n ∈ names, dict n = none) →
      packFieldsAux dict names types = .error .uninitialized := by
  intro names
  induction names with
  | nil =>
    intro types dict _ _ hmiss
    obtain ⟨n, hn, _⟩ := hmiss
    exact absurd hn (List.not_mem_nil n)
  | cons n ns ih =>
    intro types dict hlen hvalid hmiss
    cases types with
    | nil => simp at hlen
    | cons t ts =>
      cases hdn : dict n with
      | none => simp [packFieldsAux, hdn]
      | some v =>
        have hv : valueOk t v :=
          hvalid (n, t) (by simp) v hdn
        have hmiss' : ∃ m ∈ ns, dict m = none := by
          obtain ⟨m, hm, hmn⟩ := hmiss
          rcases List.mem_cons.mp hm with he | he
          · rw [he] at hmn; rw [hmn] at hdn; exact absurd hdn (by simp)
          · exact ⟨m, he, hmn⟩
        have hrec := ih ts dict (by simpa using hlen)
          (fun p hp v hv => hvalid p (List.mem_cons_of_mem _ (by simpa using hp)) v hv)
          hmiss'
        cases v with
        | scalarV x =>
          simp [packFieldsAux, hdn, hv.1, hrec]
        | vectorV ws =>
          simp [packFieldsAux, hdn, hv.1, hrec]

/-- Claim C5.  (1) For every recipe and fully populated conforming record,
`RTDE_IO_Config.pack` emits the recipe identifier byte (when the recipe
has one) followed by the fields in recipe order, each vector expanded
element-wise, every value encoded big-endian.  (2) In particular, for the
input recipe `["x","y"] : [DOUBLE, DOUBLE]` holding `1.0` and `2.0`, the
payload is the identifier byte followed by the two big-endian 64-bit
floats `1.0` and `2.0`.  (3) If any field is unpopulated, pack fails with
the uninitialized-field error. -/
theorem rtde_pack_layout :
    (∀ (cfg : RTDE_IO_Config) (state : RTDEDataObject) (vals : List Value),
      state.recipe_id = cfg.id →
      (∀ r, cfg.id = some r → slotOk .fB r) →
      ZipAll (fun n v => state.dict n = some v) cfg.names vals →
      ZipAll valueOk cfg.types vals →
      RTDE_IO_Config.pack cfg state =
        .ok (idBytes cfg.id ++
          concatMapL (fun p => specFieldBytes p.1 p.2) (cfg.types.zip vals))) ∧
    RTDE_IO_Config.pack c5Cfg c5State =
      .ok [1, 63, 240, 0, 0, 0, 0, 0, 0, 64, 0, 0, 0, 0, 0, 0, 0] ∧
    (∀ (cfg : RTDE_IO_Config) (state : RTDEDataObject),
      cfg.names.length = cfg.types.length →
      (∀ p ∈ cfg.names.zip cfg.types, ∀ v, state.dict p.1 = some v → valueOk p.2 v) →
      (∃ n ∈ cfg.names, state.dict n = none) →
      RTDE_IO_Config.pack cfg state = .error .uninitialized) := by
  refine ⟨?_, by rfl, ?_⟩
  · intro cfg state vals hrid hidOk hrec hok
    obtain ⟨ints, hpack, hints, hzip, _⟩ :=
      fields_main cfg.names cfg.types vals state.dict hrec hok
    have hlen : cfg.names.length = cfg.types.length :=
      (ZipAll.length_eq _ _ hrec).trans (ZipAll.length_eq _ _ hok).symm
    unfold RTDE_IO_Config.pack RTDEDataObject.pack
    rw [if_neg (by omega), hpack, hrid, hints]
    have hfmt : fmtOf cfg =
        (match cfg.id with
         | some _ => [FmtChar.fB]
         | none => []) ++ concatMapL fmtChars cfg.types := by
      simp [fmtOf, mapFlatten_eq_concatMapL]
    rw [hfmt]
    cases hid : cfg.id with
    | none =>
      simp only [List.nil_append]
      rw [structPack_fields_bytes cfg.types vals hok]
      simp [idBytes]
    | some r =>
      have henc := encodeSlot_eq .fB r (hidOk r hid)
      simp only [List.cons_append, List.nil_append, List.singleton_append, structPack,
        List.append_eq]
      rw [henc, structPack_fields_bytes cfg.types vals hok]
      simp [idBytes, wireNat, fmtWidth]
  · intro cfg state hlen hvalid hmiss
    unfold RTDE_IO_Config.pack RTDEDataObject.pack
    rw [if_neg (by omega), packFieldsAux_uninit cfg.names cfg.types state.dict hlen hvalid hmiss]

/-- Witness for `rtde_pack_layout`, applying its universal parts at a
concrete recipe and record. -/
theorem rtde_pack_layout_witness :
    RTDE_IO_Config.pack c5Cfg c5State =
      .ok (idBytes c5Cfg.id ++
        concatMapL (fun p => specFieldBytes p.1 p.2)
          (c5Cfg.types.zip [Value.scalarV bitsOne, Value.scalarV bitsTwo])) ∧
    RTDE_IO_Config.pack c5Cfg c5mState = .error .uninitialized :=
  ⟨rtde_pack_layout.1 c5Cfg c5State [Value.scalarV bitsOne, Value.scalarV bitsTwo]
    rfl (fun r h => by injection h with h2; rw [← h2]; decide)
    (by decide) (by decide),
   rtde_pack_layout.2.2 c5Cfg c5mState rfl
    (fun p hp v hv => Option.noConfusion hv)
    ⟨nmX, by decide, rfl⟩⟩

theorem encodeFrame_length (f : Nat × List Nat) :
    (encodeFrame f).length = 3 + f.2.length := by
  simp [encodeFrame, beBytes_length]
  omega

theorem processBuf_cons (fl : Nat) (cmd : Nat) (payload rest : List Nat)
    (hc0 : cmd ≠ 0) (hslt : 3 + payload.length < 65536) :
    processBuf (fl + 1) (encodeFrame (cmd, payload) ++ rest)
      = (cmd, payload) :: processBuf fl rest := by
  have hbe : beBytes 2 (3 + payload.length)
      = [(3 + payload.length) / 256 % 256, (3 + payload.length) % 256] := rfl
  have e : encodeFrame (cmd, payload) ++ rest
      = (3 + payload.length) / 256 % 256 :: ((3 + payload.length) % 256 ::
          (cmd :: (payload ++ rest))) := by
    rw [show encodeFrame (cmd, payload)
        = beBytes 2 (3 + payload.length) ++ cmd :: payload from rfl, hbe]
    simp
  rw [e]
  simp only [processBuf, List.getD_cons_zero, List.getD_cons_succ, List.length_cons]
  have hsize : 256 * ((3 + payload.length) / 256 % 256) + (3 + payload.length) % 256
      = 3 + payload.length := by omega
  rw [hsize]
  rw [if_pos (by omega), if_pos (by simp [List.length_append]; omega), if_neg hc0]
  have htk : ((3 + payload.length) / 256 % 256 :: ((3 + payload.length) % 256 ::
        (cmd :: (payload ++ rest)))).take (3 + payload.length)
      = (3 + payload.length) / 256 % 256 :: ((3 + payload.length) % 256 ::
        (cmd :: payload)) := by
    rw [show 3 + payload.length = payload.length + 1 + 1 + 1 from by omega]
    simp only [List.take_succ_cons]
    rw [takeLenAppend]
  have hdr : ((3 + payload.length) / 256 % 256 :: ((3 + payload.length) % 256 ::
        (cmd :: (payload ++ rest)))).drop (3 + payload.length) = rest := by
    rw [show 3 + payload.length = payload.length + 1 + 1 + 1 from by omega]
    simp only [List.drop_succ_cons]
    rw [dropLenAppend]
  rw [htk, hdr]
  rfl

theorem processBuf_frames :
    ∀ (fs : List (Nat × List Nat)), (∀ f ∈ fs, wfFrame f) →
      ∀ fuel : Nat, (encodeFrames fs).length < fuel →
        processBuf fuel (encodeFrames fs) = fs := by
  intro fs
  induction fs with
  | nil =>
    intro _ fuel hf
    cases fuel with
    | zero => omega
    | succ k => rfl
  | cons f fs ih =>
    intro hwf fuel hf
    obtain ⟨cmd, payload⟩ := f
    obtain ⟨hc0, _, hslt⟩ := hwf (cmd, payload) (List.mem_cons_self _ _)
    cases fuel with
    | zero => omega
    | succ fl =>
      have he : encodeFrames ((cmd, payload) :: fs)
          = encodeFrame (cmd, payload) ++ encodeFrames fs := rfl
      rw [he, processBuf_cons fl cmd payload (encodeFrames fs) hc0 hslt,
        ih (fun g hg => hwf g (List.mem_cons_of_mem _ hg)) fl ?_]
      have hlen : (encodeFrames ((cmd, payload) :: fs)).length
          = 3 + payload.length + (encodeFrames fs).length := by
        rw [he, List.length_append, encodeFrame_length]
      omega

/-- The frames of one chunk that is itself a whole-frame concatenation. -/
theorem receiveChunk_frames (fs : List (Nat × List Nat))
    (hwf : ∀ f ∈ fs, wfFrame f) :
    receiveChunk (encodeFrames fs) = fs :=
  processBuf_frames fs hwf ((encodeFrames fs).length + 1) (by omega)

/-- Claim C2 (amended to frame-aligned chunk boundaries).  Feeding the
receive loop one chunk per call yields the same frame sequence, in the
same order, as feeding the whole byte stream in a single read, provided
every chunk is itself a concatenation of complete well-formed frames.
(For splits that cut a frame in two, `__receive` discards the residual
bytes and the straddling frame is lost — see `c2_counterexample`.) -/
theorem frames_chunked_eq_whole (parts : List (List (Nat × List Nat)))
    (h : ∀ f ∈ parts.flatten, wfFrame f) :
    (parts.map fun fs => receiveChunk (encodeFrames fs)).flatten
      = receiveChunk (encodeFrames parts.flatten) := by
  have hall : ∀ fs ∈ parts, receiveChunk (encodeFrames fs) = fs := fun fs hfs =>
    receiveChunk_frames fs fun f hf => h f (List.mem_flatten.mpr ⟨fs, hfs, hf⟩)
  rw [List.map_congr_left hall, receiveChunk_frames parts.flatten h]
  simp

/-- Witness for `frames_chunked_eq_whole` at a concrete two-chunk split. -/
theorem frames_chunked_eq_whole_witness :
    ([[(85, [7])], [(86, [1, 2]), (79, ([] : List Nat))]].map
        fun fs => receiveChunk (encodeFrames fs)).flatten
      = receiveChunk
          (encodeFrames ([[(85, [7])], [(86, [1, 2]), (79, [])]] : List (List (Nat × List Nat))).flatten) :=
  frames_chunked_eq_whole [[(85, [7])], [(86, [1, 2]), (79, [])]] (by decide)

/-- Counterexample to claim C2 as stated: the single well-formed frame
`(85, [7])` encodes to `[0, 4, 85, 7]`; split into the reads `[0, 4, 85]`
and `[7]`, the receive loop decodes no frame at all (each call discards
its incomplete buffer), while the whole buffer in one read decodes the
frame. -/
theorem c2_counterexample :
    encodeFrames [(85, [7])] = [0, 4, 85, 7] ∧
    wfFrame (85, [7]) ∧
    receiveChunk [0, 4, 85] ++ receiveChunk [7] = [] ∧
    receiveChunk [0, 4, 85, 7] = [(85, [7])] ∧
    ([] : List (Nat × List Nat)) ≠ [(85, [7])] :=
  ⟨rfl, by decide, rfl, rfl, by decide⟩

/-- Claim C3 evaluated on the code.  With input recipe names `["speed"]`:
a list-form call with the valid name `"speed"` and a matching value list
raises `AttributeError` (`self.hasattr` does not exist) instead of
updating the record — refuting "for valid names with matching lengths the
call updates the outbound record and does not fail".  The length-mismatch
check and the scalar-form behaviours do hold. -/
theorem setData_list_valid_name_raises_attrError :
    setDataList [nmSpeed] [(nmSpeed, Value.scalarV 0)] [nmSpeed] [Value.scalarV 1]
      = .errAttr ∧
    setDataList [nmSpeed] [(nmSpeed, Value.scalarV 0)] [nmSpeed] [] = .errLength ∧
    setDataScalar [nmSpeed] [(nmSpeed, Value.scalarV 0)] nmSpeed (Value.scalarV 1)
      = .updated [(nmSpeed, Value.scalarV 1)] ∧
    setDataScalar [nmSpeed] [(nmSpeed, Value.scalarV 0)] nmX (Value.scalarV 1)
      = .errNaming := by
  refine ⟨by decide, by decide, by decide, by decide⟩

/-- Claim C4 evaluated on the code: a data-package frame received before
any output recipe is negotiated does NOT complete without error — the
receive step raises inside `__updateModel` (AttributeError from
`None.keys()` when `dataDir['timestamp']` is still `None`, TypeError from
`None['timestamp']` otherwise), refuting the claim that the frame is
dropped with the store left unchanged and no error. -/
theorem data_package_without_recipe_raises :
    handleDataPackageFrame none [0, 1, 2] (fun _ => none) = .error .attrErr ∧
    handleDataPackageFrame none [0, 1, 2]
      (fun n => if n = tsKey then some (Value.scalarV 0) else none) = .error .typeErr :=
  ⟨rfl, rfl⟩

/-- Counterexample to claim C6 as stated: when the monitor leaves its loop
because the external stop request is asserted, `__sendPrg` transmits
nothing (its send loop is guarded by `not stopRunningFlag`), so the
reset-registers program is NOT sent on this exit: the transmission list
is empty. -/
theorem c6_counterexample :
    waitForProgram2Finish 5 envsQuiet stStopReq [] true
      = some ({ stopRunningFlag := true, rtcProgramRunning := false,
                rtcProgramExecutionError := false,
                rtcConnectionState := .CONNECTED,
                forceRemoteActiveFlag := false }, []) ∧
    prgRest ∉ ([] : List (List Char)) :=
  ⟨rfl, by simp⟩

/-- Claim C6 (amended).  On leaving the polling loop the monitor always
invokes the send routine with the fixed reset-both-registers program, and
the reset program is actually transmitted over the script socket whenever
the stop-requested flag is clear at that point (and the socket is
writable); with the stop flag set, nothing is transmitted
(`c6_counterexample`). -/
theorem monitor_reset_sent_unless_stopped (fuel : Nat) (envs : Nat → MonitorEnv)
    (robotModel stL : RobotModel) (prg : List Char)
    (hmon : monitorRun fuel envs 0 robotModel 0 (prg.length / 50) = some stL)
    (hstop : stL.stopRunningFlag = false) :
    waitForProgram2Finish fuel envs robotModel prg true
      = some ({stL with forceRemoteActiveFlag := false, rtcProgramRunning := false},
              [prgRest]) := by
  unfold waitForProgram2Finish
  rw [hmon]
  unfold sendPrg
  simp [hstop]

/-- Witness for `monitor_reset_sent_unless_stopped`: a run that leaves the
loop through the safety-stop branch transmits exactly the reset
program. -/
theorem monitor_reset_sent_unless_stopped_witness :
    waitForProgram2Finish 2 envsSafety stRun [] true
      = some ({ stopRunningFlag := false, rtcProgramRunning := false,
                rtcProgramExecutionError := true,
                rtcConnectionState := .CONNECTED,
                forceRemoteActiveFlag := false }, [prgRest]) :=
  monitor_reset_sent_unless_stopped 2 envsSafety stRun
    { stopRunningFlag := false, rtcProgramRunning := false,
      rtcProgramExecutionError := true, rtcConnectionState := .CONNECTED,
      forceRemoteActiveFlag := false } [] (by rfl) (by rfl)

/-- Claim C7.  In any monitor-loop iteration in which the safety-stop
signal is asserted, the iteration sets the program-running flag to false
and the program-execution-error flag to true, and the loop then exits at
its very next condition check (one polling interval), whatever signals
follow. -/
theorem safety_stop_terminal (robotModel : RobotModel) (env : MonitorEnv)
    (notrun waitForProgramStart fuel k : Nat) (envs : Nat → MonitorEnv)
    (hsafe : env.stoppedDueToSafety = true) :
    (monitorStep robotModel env notrun waitForProgramStart).1.rtcProgramRunning = false ∧
    (monitorStep robotModel env notrun waitForProgramStart).1.rtcProgramExecutionError = true ∧
    monitorRun (fuel + 1) envs k
      (monitorStep robotModel env notrun waitForProgramStart).1
      (monitorStep robotModel env notrun waitForProgramStart).2 waitForProgramStart
      = some (monitorStep robotModel env notrun waitForProgramStart).1 := by
  simp [monitorStep, hsafe, monitorRun]

/-- Witness for `safety_stop_terminal` at a concrete store and signal. -/
theorem safety_stop_terminal_witness :
    (monitorStep stRun envSafety 0 0).1.rtcProgramRunning = false ∧
    (monitorStep stRun envSafety 0 0).1.rtcProgramExecutionError = true ∧
    monitorRun 4 envsQuiet 1 (monitorStep stRun envSafety 0 0).1
      (monitorStep stRun envSafety 0 0).2 0 = some (monitorStep stRun envSafety 0 0).1 :=
  safety_stop_terminal stRun envSafety 0 0 3 1 envsQuiet rfl

theorem strFind_eq_none (s pat : List Char) :
    strFind s pat = none ↔ ¬ occursIn pat s := by
  induction s with
  | nil =>
    simp only [strFind]
    constructor
    · intro h
      rintro ⟨i, hi⟩
      rw [List.drop_nil] at hi
      rw [if_pos hi] at h
      exact Option.noConfusion h
    · intro hno
      rw [if_neg]
      intro hp
      exact hno ⟨0, hp⟩
  | cons c t ih =>
    simp only [strFind]
    by_cases hp : pat.isPrefixOf (c :: t) = true
    · rw [if_pos hp]
      constructor
      · intro h
        exact Option.noConfusion h
      · intro hno
        exact absurd ⟨0, hp⟩ hno
    · rw [if_neg hp]
      constructor
      · intro h
        have ht : strFind t pat = none := by
          cases hf : strFind t pat with
          | none => rfl
          | some j =>
            rw [hf] at h
            exact Option.noConfusion h
        rintro ⟨i, hi⟩
        cases i with
        | zero => exact hp hi
        | succ i =>
          rw [List.drop_succ_cons] at hi
          exact (ih.mp ht) ⟨i, hi⟩
      · intro hno
        have ht : strFind t pat = none :=
          ih.mpr fun h =>
            match h with
            | ⟨i, hi⟩ => hno ⟨i + 1, by rw [List.drop_succ_cons]; exact hi⟩
        rw [ht]
        rfl

theorem strFind_some_of_occurs (s pat : List Char) (h : occursIn pat s) :
    ∃ d, strFind s pat = some d := by
  cases hf : strFind s pat with
  | some d => exact ⟨d, rfl⟩
  | none => exact absurd h ((strFind_eq_none s pat).mp hf)

theorem strFind_eq_some_of_first (s pat : List Char) (i : Nat)
    (hocc : pat.isPrefixOf (s.drop i) = true)
    (hmin : ∀ j, j < i → pat.isPrefixOf (s.drop j) = false) :
    strFind s pat = some i := by
  induction s generalizing i with
  | nil =>
    cases i with
    | zero =>
      simp only [List.drop_zero] at hocc
      simp only [strFind]
      rw [if_pos hocc]
    | succ i =>
      have h0 := hmin 0 (by omega)
      rw [List.drop_nil] at hocc
      simp only [List.drop_zero, List.drop_nil] at h0
      rw [h0] at hocc
      exact Bool.noConfusion hocc
  | cons c t ih =>
    cases i with
    | zero =>
      simp only [List.drop_zero] at hocc
      simp only [strFind]
      rw [if_pos hocc]
    | succ i =>
      have h0 := hmin 0 (by omega)
      simp only [List.drop_zero] at h0
      have h0' : ¬ (pat.isPrefixOf (c :: t) = true) := by
        intro hq
        rw [hq] at h0
        exact Bool.noConfusion h0
      simp only [strFind]
      rw [if_neg h0']
      rw [ih i (by rw [List.drop_succ_cons] at hocc; exact hocc)
        (fun j hj => by
          have hm := hmin (j + 1) (by omega)
          rw [List.drop_succ_cons] at hm
          exact hm)]
      rfl

theorem strRfind_eq_none (s pat : List Char) :
    strRfind s pat = none ↔ ¬ occursIn pat s := by
  induction s with
  | nil =>
    simp only [strRfind]
    constructor
    · intro h
      rintro ⟨i, hi⟩
      rw [List.drop_nil] at hi
      rw [if_pos hi] at h
      exact Option.noConfusion h
    · intro hno
      rw [if_neg]
      intro hp
      exact hno ⟨0, hp⟩
  | cons c t ih =>
    simp only [strRfind]
    cases hr : strRfind t pat with
    | some j =>
      have ht : occursIn pat t := by
        by_contra hno
        rw [ih.mpr hno] at hr
        exact Option.noConfusion hr
      obtain ⟨i, hi⟩ := ht
      constructor
      · intro h
        exact Option.noConfusion h
      · intro hno
        exact absurd ⟨i + 1, by rw [List.drop_succ_cons]; exact hi⟩ hno
    | none =>
      have ht : ¬ occursIn pat t := ih.mp hr
      by_cases hp : pat.isPrefixOf (c :: t) = true
      · rw [if_pos hp]
        constructor
        · intro h
          exact Option.noConfusion h
        · intro hno
          exact absurd ⟨0, hp⟩ hno
      · rw [if_neg hp]
        constructor
        · intro _
          rintro ⟨i, hi⟩
          cases i with
          | zero => exact hp hi
          | succ i =>
            rw [List.drop_succ_cons] at hi
            exact ht ⟨i, hi⟩
        · intro _
          rfl

theorem strRfind_eq_some_of_last (s pat : List Char) (k : Nat)
    (hocc : pat.isPrefixOf (s.drop k) = true)
    (hmax : ∀ j, k < j → pat.isPrefixOf (s.drop j) = false) :
    strRfind s pat = some k := by
  induction s generalizing k with
  | nil =>
    have h1 := hmax (k + 1) (by omega)
    rw [List.drop_nil] at hocc
    rw [List.drop_nil] at h1
    rw [h1] at hocc
    exact Bool.noConfusion hocc
  | cons c t ih =>
    cases k with
    | zero =>
      have hnone : strRfind t pat = none := by
        rw [strRfind_eq_none]
        rintro ⟨j, hj⟩
        have hm := hmax (j + 1) (by omega)
        rw [List.drop_succ_cons] at hm
        rw [hm] at hj
        exact Bool.noConfusion hj
      simp only [List.drop_zero] at hocc
      simp only [strRfind, hnone]
      rw [if_pos hocc]
    | succ k =>
      have hr := ih k (by rw [List.drop_succ_cons] at hocc; exact hocc)
        (fun j hj => by
          have hm := hmax (j + 1) (by omega)
          rw [List.drop_succ_cons] at hm
          exact hm)
      simp only [strRfind, hr]

/-- Claim C10.  A program text containing `'def '` but no occurrence of
`'):\n'` makes `__AddStatusBit2Prog` return the boolean `False` instead
of an instrumented string: the marker-inserting `replace` changes
nothing, the length test on line 211 sees an unchanged length, and
line 212 returns `False`. -/
theorem addStatusBit_no_header_returns_false (prg : List Char)
    (h1 : occursIn defTok prg)
    (h2 : ¬ occursIn hdrTok prg) :
    addStatusBit2Prog prg = .falseVal := by
  obtain ⟨d, hd⟩ := strFind_some_of_occurs prg defTok h1
  have hn : strFind prg hdrTok = none := (strFind_eq_none prg hdrTok).mpr h2
  unfold addStatusBit2Prog strReplaceFirst
  rw [hd, hn]
  simp

/-- Witness for `addStatusBit_no_header_returns_false`. -/
theorem addStatusBit_no_header_returns_false_witness :
    addStatusBit2Prog c10prg = .falseVal :=
  addStatusBit_no_header_returns_false c10prg
    ⟨0, by decide⟩
    ((strFind_eq_none c10prg hdrTok).mp (by decide))

theorem isPrefixOf_length_le :
    ∀ (l1 l2 : List Char), l1.isPrefixOf l2 = true → l1.length ≤ l2.length := by
  intro l1
  induction l1 with
  | nil => intro l2 _; simp
  | cons a t ih =>
    intro l2 h
    cases l2 with
    | nil => simp [List.isPrefixOf] at h
    | cons b t2 =>
      simp only [List.isPrefixOf, Bool.and_eq_true] at h
      have := ih t2 h.2
      simp only [List.length_cons]
      omega

/-- Claim C8.  Part 1: for a text whose first `'):\n'` sits at index `i`
(the end of the single definition header), whose instrumented form still
contains exactly one `'def '`, and whose last `'end'` sits at index `k`
of the instrumented form, `__AddStatusBit2Prog` returns exactly the
original text with one started-marker write spliced in immediately after
the header and one finished-marker write spliced in immediately before
the closing `end` — no other change.  Part 2: a text with no function
definition is wrapped whole in a synthesized function whose body is
preceded by the started-marker write and followed by the finished-marker
write. -/
theorem addStatusBit_one_def_block
    (prg : List Char) (i k : Nat)
    (hdef : occursIn defTok prg)
    (hhdr : hdrTok.isPrefixOf (prg.drop i) = true)
    (hfirst : ∀ j, j < i → hdrTok.isPrefixOf (prg.drop j) = false)
    (hcount : countSub (prg.take i ++ (hdrTok ++ startIns) ++ prg.drop (i + 3)) defTok = 1)
    (hlast : strRfind (prg.take i ++ (hdrTok ++ startIns) ++ prg.drop (i + 3)) endTok
      = some k) :
    addStatusBit2Prog prg
      = .prgStr ((prg.take i ++ (hdrTok ++ startIns) ++ prg.drop (i + 3)).take k
          ++ finishIns
          ++ (prg.take i ++ (hdrTok ++ startIns) ++ prg.drop (i + 3)).drop k) ∧
    ∀ q : List Char, ¬ occursIn defTok q →
      addStatusBit2Prog q = .prgStr (wrapPre ++ q ++ wrapSuf) := by
  constructor
  · obtain ⟨d, hd⟩ := strFind_some_of_occurs prg defTok hdef
    have hrep : strFind prg hdrTok = some i :=
      strFind_eq_some_of_first prg hdrTok i hhdr hfirst
    have hp1 : strReplaceFirst prg hdrTok (hdrTok ++ startIns)
        = prg.take i ++ (hdrTok ++ startIns) ++ prg.drop (i + 3) := by
      unfold strReplaceFirst
      rw [hrep]
      rfl
    have hle : i + 3 ≤ prg.length := by
      have hpre := isPrefixOf_length_le hdrTok (prg.drop i) hhdr
      rw [List.length_drop] at hpre
      have h3 : hdrTok.length = 3 := rfl
      omega
    have hlen : (prg.take i ++ (hdrTok ++ startIns) ++ prg.drop (i + 3)).length
        = prg.length + startIns.length := by
      simp only [List.length_append, List.length_take, List.length_drop]
      have h3 : hdrTok.length = 3 := rfl
      omega
    have hpos : 0 < startIns.length := by decide
    have hne : ¬ ((prg.take i ++ (hdrTok ++ startIns) ++ prg.drop (i + 3)).length
        = prg.length) := by
      rw [hlen]
      omega
    simp only [addStatusBit2Prog, hd, hp1, hcount, hlast]
    rw [if_neg hne]
    simp
  · intro q hq
    have hn : strFind q defTok = none := (strFind_eq_none q defTok).mpr hq
    unfold addStatusBit2Prog
    rw [hn]

/-- Witness for `addStatusBit_one_def_block` at concrete texts. -/
theorem addStatusBit_one_def_block_witness :
    addStatusBit2Prog c8prg
      = .prgStr ((c8prg.take 6 ++ (hdrTok ++ startIns) ++ c8prg.drop (6 + 3)).take 52
          ++ finishIns
          ++ (c8prg.take 6 ++ (hdrTok ++ startIns) ++ c8prg.drop (6 + 3)).drop 52) ∧
    addStatusBit2Prog c8noDef = .prgStr (wrapPre ++ c8noDef ++ wrapSuf) :=
  ⟨(addStatusBit_one_def_block c8prg 6 52 ⟨0, by decide⟩ (by decide) (by decide)
      (by decide) (by decide)).1,
   (addStatusBit_one_def_block c8prg 6 52 ⟨0, by decide⟩ (by decide) (by decide)
      (by decide) (by decide)).2
     c8noDef ((strFind_eq_none c8noDef defTok).mp (by decide))⟩

/-- Claim C9.  A `SendProgram` call made while the stop-requested flag is
set and the script channel is connected returns with the store unchanged
(in particular the program-running and program-execution-error flags) and
performs no externally visible action: nothing is transmitted on the
script socket and no monitoring task is started. -/
theorem sendProgram_stop_requested_noop (robotModel : RobotModel)
    (connectOk threadExists : Bool) (prg : List Char)
    (hconn : IsRtcConnected robotModel = true)
    (hstop : robotModel.stopRunningFlag = true) :
    SendProgram robotModel connectOk threadExists prg = (robotModel, []) := by
  simp [SendProgram, hconn, hstop]

/-- Witness for `sendProgram_stop_requested_noop`. -/
theorem sendProgram_stop_requested_noop_witness :
    SendProgram stC9 false true c8noDef = (stC9, []) :=
  sendProgram_stop_requested_noop stC9 false true c8noDef (by decide) rfl
